import Mathlib

/-!
Verification of the import-synchronization subsystem of the flogo CLI
(`api/project.go`): `AddImports`, `addImportsInGo`, `addImportsInJson`
and `RemoveImports` on `appProjectImpl`.

The Go code under `src/api/project.go` is embedded shallowly below.  The
helper package `util` of the same repository (the `Import` value type with
its `GoImportPath`/`CanonicalImport`/`Alias` accessors, `NewFlogoImport`,
`ParseImports`, `AddImport`, `DeleteImport`) is not part of the provided
sources; those leaves are modelled from the spec, and every such definition
says so in its doc comment.  External collaborators (the dependency
resolver `DepManager.AddDependency`, the filesystem) are modelled as an
oracle `resolve : Import → Bool` and as explicit file-state values.
-/

namespace FlogoCli

/-- Modelled from the spec: the Import Value type of the missing `util`
package — module path, optional relative sub-path, optional version,
optional alias (`""` means absent). -/
structure Import where
  modulePath : String
  relativePath : String
  version : String
  importAlias : String
deriving DecidableEq, Repr

/-- Modelled from the spec: the derived *key* of an Import Value
(`util.Import.GoImportPath()`), a deterministic string combining the
module path and the relative sub-path; the identity used for
de-duplication in both representations. -/
def Import.GoImportPath (i : Import) : String :=
  i.modulePath ++ i.relativePath

/-- Modelled from the spec: `util.NewFlogoImport(modulePath, relativePath,
version, alias)` constructs an Import Value from its four fields. -/
def NewFlogoImport (modulePath relativePath version importAlias : String) : Import :=
  ⟨modulePath, relativePath, version, importAlias⟩

/-- Modelled from the spec: the derived *canonical form* of an Import
Value (`util.Import.CanonicalImport()`), a deterministic string encoding
version and alias alongside the path. -/
def canonicalImport (i : Import) : String :=
  (if i.importAlias = "" then "" else i.importAlias ++ " ")
    ++ i.modulePath
    ++ (if i.relativePath = "" then "" else ":" ++ i.relativePath)
    ++ (if i.version = "" then "" else "@" ++ i.version)

/-- One entry of the manifest's import list: a string that either is the
canonical form of an Import Value or fails to parse as one.  Modelled from
the spec: the canonical form is round-trippable (`parseEntry` below
recovers the Import Value), and anything else is an unparseable entry. -/
inductive ManifestEntry where
  | canonical (i : Import)
  | unparseable (raw : String)
deriving DecidableEq, Repr

/-- Modelled from the spec: best-effort parse of one stored import entry
(one step of `util.ParseImports`): canonical forms parse back to their
Import Value, unparseable entries yield nothing. -/
def parseEntry : ManifestEntry → Option Import
  | .canonical i => some i
  | .unparseable _ => none

/-- The manifest descriptor (`app.Config` as far as this subsystem touches
it): the import list plus the other project metadata fields, represented
by `name` and an opaque `otherData` standing for the remaining schema
fields.  The Go zero value is all-empty. -/
structure AppConfig where
  name : String
  otherData : String
  imports : List ManifestEntry
deriving DecidableEq, Repr

/-- State of `src/imports.go` as seen through `parser.ParseFile`: either
malformed (parse error) or the list of import path strings of its import
block (the rest of the file is untouched by the edits and omitted). -/
inductive GoFile where
  | malformed
  | wellFormed (paths : List String)
deriving DecidableEq, Repr

/-- State of the `flogo.json` file: absent (`os.Open` fails), present but
unreadable (`ioutil.ReadAll` fails), well-formed JSON for an `AppConfig`,
or readable but malformed JSON (`json.Unmarshal` fails). -/
inductive ManifestFile where
  | missing
  | unreadable (raw : String)
  | wellFormedM (cfg : AppConfig)
  | malformedM (raw : String)
deriving DecidableEq, Repr

/-- The durable state of a project: the two files the synchronizer edits. -/
structure ProjectState where
  goFile : GoFile
  manifest : ManifestFile
deriving DecidableEq, Repr

/-! ### The Go map `existingImports : map[string]util.Import`

Embedded as an association list.  Go map iteration order is unspecified;
the association-list order below is one admissible order, and no theorem
in this file depends on it beyond what the claims state. -/

/-- Association-list embedding of `map[string]util.Import`. -/
abbrev ImportMap := List (String × Import)

/-- Map read `m[k]`. -/
def lookupKey : ImportMap → String → Option Import
  | [], _ => none
  | (k, v) :: rest, key => if k = key then some v else lookupKey rest key

/-- Map write `m[k] = v`: overwrite in place when the key is present,
append otherwise. -/
def insertKey (m : ImportMap) (k : String) (v : Import) : ImportMap :=
  if (lookupKey m k).isSome then
    m.map (fun p => if p.1 = k then (k, v) else p)
  else
    m ++ [(k, v)]

/-- Map deletion `delete(m, k)`. -/
def eraseKey (m : ImportMap) (k : String) : ImportMap :=
  m.filter (fun p => p.1 ≠ k)

/-- `project.go` lines 161-165: build `existingImports` from the parsed
manifest imports, keyed by `GoImportPath`. -/
def buildMap (l : List Import) : ImportMap :=
  l.foldl (fun m e => insertKey m e.GoImportPath e) []

/-- One iteration of the merge loop of `addImportsInJson`
(`project.go` lines 167-183): insert a fresh key directly; on a key
collision with a different canonical form, replace the entry by the
incoming paths and version, carrying over the existing alias when the
incoming one is empty; on an identical canonical form, change nothing. -/
def mergeOne (m : ImportMap) (i : Import) : ImportMap :=
  match lookupKey m i.GoImportPath with
  | none => insertKey m i.GoImportPath i
  | some val =>
    if canonicalImport i ≠ canonicalImport val then
      let m' := eraseKey m val.GoImportPath
      let a := if val.importAlias ≠ "" ∧ i.importAlias = "" then val.importAlias
               else i.importAlias
      insertKey m' i.GoImportPath (NewFlogoImport i.modulePath i.relativePath i.version a)
    else m

/-- The whole merge of `addImportsInJson`: parse the existing entries
best-effort, build the keyed map, fold the incoming batch through the
merge loop. -/
def mergeImports (entries : List ManifestEntry) (batch : List Import) : ImportMap :=
  batch.foldl mergeOne (buildMap (entries.filterMap parseEntry))

/-- `project.go` lines 184-188: rebuild the manifest import list from the
map values, re-serializing each to its canonical form. -/
def rebuildImports (m : ImportMap) : List ManifestEntry :=
  m.map (fun p => ManifestEntry.canonical p.2)

/-! ### The source-file editor -/

/-- Modelled from the spec: `util.AddImport` inserts an import path into
the parsed import block if not already present (de-duplicated by exact
path match). -/
def addGoImport (paths : List String) (p : String) : List String :=
  if p ∈ paths then paths else paths ++ [p]

/-- Modelled from the spec: `util.DeleteImport` removes the entries whose
path matches the given string exactly; an absent path is a no-op. -/
def deleteGoImport (paths : List String) (p : String) : List String :=
  paths.filter (fun q => q ≠ p)

/-- The per-import loop of `addImportsInGo` (`project.go` lines 118-131):
resolve each import through the dependency manager; on failure either skip
it (ignore mode) or abort the batch with the error (strict mode); on
success add its path to the parsed import block. -/
def goAddLoop (resolve : Import → Bool) (ignoreError : Bool) :
    List Import → List String → Except String (List String)
  | [], paths => .ok paths
  | i :: rest, paths =>
    if resolve i then
      goAddLoop resolve ignoreError rest (addGoImport paths i.GoImportPath)
    else if ignoreError then
      goAddLoop resolve ignoreError rest paths
    else
      .error ("Error in installing " ++ canonicalImport i)

/-- `addImportsInGo` (`project.go` lines 109-142): parse `imports.go`
(parse failure is returned before anything else runs), run the resolve/add
loop, and only then rewrite the file.  A strict-mode resolution failure
returns before the write, leaving the file as it was. -/
def addImportsInGo (resolve : Import → Bool) (ignoreError : Bool)
    (imports : List Import) : GoFile → GoFile × Option String
  | .malformed => (.malformed, some "parse error: imports.go")
  | .wellFormed paths =>
    match goAddLoop resolve ignoreError imports paths with
    | .ok ps => (.wellFormed ps, none)
    | .error e => (.wellFormed paths, some e)

/-- `addImportsInJson` (`project.go` lines 144-203): a missing or
unreadable `flogo.json` is a returned error; the `json.Unmarshal` error is
discarded, so a malformed manifest proceeds as the zero-value `AppConfig`;
the merged import list replaces the old one wholesale and the whole
descriptor is rewritten.  The `ignoreError` parameter is accepted and,
as in the code, never used. -/
def addImportsInJson (_ignoreError : Bool) (imports : List Import) :
    ManifestFile → ManifestFile × Option String
  | .missing => (.missing, some "open flogo.json: no such file or directory")
  | .unreadable raw => (.unreadable raw, some "read flogo.json: input error")
  | .wellFormedM cfg =>
    (.wellFormedM { cfg with imports := rebuildImports (mergeImports cfg.imports imports) },
     none)
  | .malformedM _ =>
    (.wellFormedM { name := "", otherData := "",
                    imports := rebuildImports (mergeImports [] imports) },
     none)

/-- `AddImports` (`project.go` lines 205-213): Go imports first (their
resolution acts as the gate); an error there is returned before the
manifest step runs; otherwise the manifest merge runs on the full batch. -/
def AddImports (resolve : Import → Bool) (ignoreError : Bool)
    (imports : List Import) (s : ProjectState) : ProjectState × Option String :=
  match addImportsInGo resolve ignoreError imports s.goFile with
  | (g, some e) => ({ s with goFile := g }, some e)
  | (g, none) =>
    match addImportsInJson ignoreError imports s.manifest with
    | (m, e) => ({ goFile := g, manifest := m }, e)

/-- `RemoveImports` (`project.go` lines 215-236): parse `imports.go`
(parse failure returned first), delete each given path from the import
block, rewrite the file.  `flogo.json` is never touched. -/
def RemoveImports (keys : List String) (s : ProjectState) :
    ProjectState × Option String :=
  match s.goFile with
  | .malformed => (s, some "parse error: imports.go")
  | .wellFormed paths =>
    ({ s with goFile := .wellFormed (keys.foldl deleteGoImport paths) }, none)

/-! ### Derived views used by the claims -/

/-- The key set of the source representation: the import paths of its
block (empty view when the file does not parse). -/
def goKeys : GoFile → List String
  | .malformed => []
  | .wellFormed paths => paths

/-- The key set of the manifest representation: the keys of the entries of
the import list that parse (empty view otherwise). -/
def manifestKeys : ManifestFile → List String
  | .wellFormedM cfg => (cfg.imports.filterMap parseEntry).map Import.GoImportPath
  | _ => []

/-! ### Association-list map lemmas -/

theorem lookupKey_eq_none_iff (m : ImportMap) (k : String) :
    lookupKey m k = none ↔ k ∉ m.map Prod.fst := by
  induction m with
  | nil => simp [lookupKey]
  | cons p rest ih =>
    cases p with
    | mk a b =>
      by_cases h : a = k
      · subst h
        simp [lookupKey]
      · simp [lookupKey, h, ih, Ne.symm h]

theorem insertKey_of_absent (m : ImportMap) (k : String) (v : Import)
    (h : lookupKey m k = none) : insertKey m k v = m ++ [(k, v)] := by
  simp [insertKey, h]

theorem lookupKey_append_of_none (m l : ImportMap) (k : String)
    (h : lookupKey m k = none) : lookupKey (m ++ l) k = lookupKey l k := by
  induction m with
  | nil => simp
  | cons p rest ih =>
    cases p with
    | mk a b =>
      by_cases hak : a = k
      · subst hak
        simp [lookupKey] at h
      · simp [lookupKey, hak] at h ⊢
        exact ih h

theorem lookupKey_map_replace (k : String) (v : Import) :
    ∀ m : ImportMap, (lookupKey m k).isSome →
      lookupKey (m.map (fun p => if p.1 = k then (k, v) else p)) k = some v
  | [], h => by simp [lookupKey] at h
  | (a, b) :: rest, h => by
    by_cases hak : a = k
    · subst hak
      rw [List.map_cons, if_pos rfl]
      simp [lookupKey]
    · have h' : (lookupKey rest k).isSome := by
        simpa [lookupKey, hak] using h
      rw [List.map_cons, if_neg hak]
      simpa [lookupKey, hak] using lookupKey_map_replace k v rest h'

theorem lookupKey_insertKey_self (m : ImportMap) (k : String) (v : Import) :
    lookupKey (insertKey m k v) k = some v := by
  unfold insertKey
  by_cases h : (lookupKey m k).isSome
  · rw [if_pos h]
    exact lookupKey_map_replace k v m h
  · rw [if_neg h]
    rw [Option.not_isSome_iff_eq_none] at h
    rw [lookupKey_append_of_none m _ k h]
    simp [lookupKey]

theorem lookupKey_eraseKey_self (m : ImportMap) (k : String) :
    lookupKey (eraseKey m k) k = none := by
  rw [lookupKey_eq_none_iff]
  intro hmem
  rcases List.mem_map.mp hmem with ⟨p, hp, hfst⟩
  rcases List.mem_filter.mp hp with ⟨_, hne⟩
  simp only [decide_eq_true_eq] at hne
  exact hne hfst

theorem eraseKey_append (m l : ImportMap) (k : String) :
    eraseKey (m ++ l) k = eraseKey m k ++ eraseKey l k := by
  simp [eraseKey, List.filter_append]

theorem eraseKey_eraseKey (m : ImportMap) (k : String) :
    eraseKey (eraseKey m k) k = eraseKey m k := by
  simp [eraseKey, List.filter_filter]

/-! ### Source-editor lemmas -/

theorem mem_deleteGoImport (ps : List String) (p q : String) :
    q ∈ deleteGoImport ps p ↔ q ∈ ps ∧ q ≠ p := by
  simp [deleteGoImport, List.mem_filter]

theorem mem_foldl_deleteGoImport (keys : List String) :
    ∀ (ps : List String) (k : String), k ∈ keys.foldl deleteGoImport ps → k ∈ ps := by
  induction keys with
  | nil =>
    intro ps k h
    simpa using h
  | cons k0 rest ih =>
    intro ps k h
    rw [List.foldl_cons] at h
    exact ((mem_deleteGoImport ps k0 k).mp (ih (deleteGoImport ps k0) k h)).1

theorem not_mem_foldl_deleteGoImport (keys : List String) :
    ∀ (ps : List String) (k : String), k ∈ keys → k ∉ keys.foldl deleteGoImport ps := by
  induction keys with
  | nil =>
    intro ps k h
    cases h
  | cons k0 rest ih =>
    intro ps k hk hmem
    rw [List.foldl_cons] at hmem
    cases List.mem_cons.mp hk with
    | inl he =>
      subst he
      exact ((mem_deleteGoImport ps k k).mp
        (mem_foldl_deleteGoImport rest _ k hmem)).2 rfl
    | inr hr => exact ih _ k hr hmem

theorem deleteGoImport_of_not_mem (ps : List String) (p : String) (h : p ∉ ps) :
    deleteGoImport ps p = ps := by
  unfold deleteGoImport
  apply List.filter_eq_self.mpr
  intro q hq
  simp only [ne_eq, decide_not, Bool.not_eq_true', decide_eq_false_iff_not]
  intro he
  exact h (he ▸ hq)

theorem foldl_deleteGoImport_of_disjoint (keys : List String) :
    ∀ ps : List String, (∀ k ∈ keys, k ∉ ps) → keys.foldl deleteGoImport ps = ps := by
  induction keys with
  | nil =>
    intro ps _
    rfl
  | cons k0 rest ih =>
    intro ps h
    rw [List.foldl_cons, deleteGoImport_of_not_mem ps k0 (h k0 (by simp))]
    exact ih ps (fun k hk => h k (by simp [hk]))

/-- In strict mode a batch containing an unresolvable import always makes
the per-import loop of `addImportsInGo` return an error. -/
theorem goAddLoop_strict_error (resolve : Import → Bool) :
    ∀ (b : List Import) (ps : List String), (∃ i ∈ b, resolve i = false) →
      ∃ e, goAddLoop resolve false b ps = .error e := by
  intro b
  induction b with
  | nil =>
    intro ps h
    simp at h
  | cons i rest ih =>
    intro ps h
    by_cases hi : resolve i
    · have hrest : ∃ j ∈ rest, resolve j = false := by
        rcases h with ⟨j, hj, hjf⟩
        cases List.mem_cons.mp hj with
        | inl he =>
          subst he
          rw [hi] at hjf
          cases hjf
        | inr hr => exact ⟨j, hr, hjf⟩
      rcases ih (addGoImport ps i.GoImportPath) hrest with ⟨e, he⟩
      exact ⟨e, by simp [goAddLoop, hi, he]⟩
    · exact ⟨"Error in installing " ++ canonicalImport i, by simp [goAddLoop, hi]⟩

/-! ### The map invariant: distinct keys, each entry stored at its own key -/

/-- Invariant of `existingImports`: the keys are pairwise distinct and
every value is stored at its own `GoImportPath`. -/
def MapInv (m : ImportMap) : Prop :=
  (m.map Prod.fst).Nodup ∧ ∀ p ∈ m, p.2.GoImportPath = p.1

theorem mapInv_nil : MapInv [] :=
  ⟨List.nodup_nil, by intro p hp; cases hp⟩

theorem map_fst_replace (m : ImportMap) (k : String) (v : Import) :
    (m.map (fun p => if p.1 = k then (k, v) else p)).map Prod.fst = m.map Prod.fst := by
  induction m with
  | nil => rfl
  | cons p rest ih =>
    by_cases h : p.1 = k
    · simp [h, ih]
    · simp [h, ih]

theorem lookupKey_eq_some_mem (m : ImportMap) (k : String) (v : Import)
    (h : lookupKey m k = some v) : (k, v) ∈ m := by
  induction m with
  | nil => cases h
  | cons p rest ih =>
    cases p with
    | mk a b =>
      by_cases hak : a = k
      · subst hak
        simp [lookupKey] at h
        subst h
        exact List.mem_cons_self _ _
      · simp only [lookupKey, if_neg hak] at h
        exact List.mem_cons_of_mem _ (ih h)

theorem mapInv_insertKey (m : ImportMap) (k : String) (v : Import)
    (hm : MapInv m) (hv : v.GoImportPath = k) : MapInv (insertKey m k v) := by
  unfold insertKey
  by_cases h : (lookupKey m k).isSome
  · rw [if_pos h]
    refine ⟨by rw [map_fst_replace]; exact hm.1, ?_⟩
    intro p hp
    rcases List.mem_map.mp hp with ⟨q, hq, hfq⟩
    by_cases hqk : q.1 = k
    · rw [if_pos hqk] at hfq
      rw [← hfq]
      exact hv
    · rw [if_neg hqk] at hfq
      rw [← hfq]
      exact hm.2 q hq
  · rw [if_neg h]
    rw [Option.not_isSome_iff_eq_none, lookupKey_eq_none_iff] at h
    constructor
    · rw [List.map_append]
      apply List.Nodup.append hm.1 (by simp)
      intro a ha hb
      simp only [List.map_cons, List.map_nil, List.mem_singleton] at hb
      subst hb
      exact h ha
    · intro p hp
      cases List.mem_append.mp hp with
      | inl hl => exact hm.2 p hl
      | inr hr =>
        simp only [List.mem_singleton] at hr
        subst hr
        exact hv

theorem mapInv_eraseKey (m : ImportMap) (k : String) (hm : MapInv m) :
    MapInv (eraseKey m k) := by
  constructor
  · exact hm.1.sublist ((m.filter_sublist).map Prod.fst)
  · intro p hp
    exact hm.2 p (List.mem_of_mem_filter hp)

theorem mapInv_mergeOne (m : ImportMap) (i : Import) (hm : MapInv m) :
    MapInv (mergeOne m i) := by
  unfold mergeOne
  cases h : lookupKey m i.GoImportPath with
  | none => exact mapInv_insertKey m _ i hm rfl
  | some val =>
    dsimp only
    by_cases hd : canonicalImport i ≠ canonicalImport val
    · rw [if_pos hd]
      exact mapInv_insertKey _ _ _ (mapInv_eraseKey m _ hm) rfl
    · rw [if_neg hd]
      exact hm

theorem mapInv_foldl_mergeOne (b : List Import) :
    ∀ m : ImportMap, MapInv m → MapInv (b.foldl mergeOne m) := by
  induction b with
  | nil =>
    intro m hm
    exact hm
  | cons i rest ih =>
    intro m hm
    rw [List.foldl_cons]
    exact ih _ (mapInv_mergeOne m i hm)

theorem mapInv_buildMap (l : List Import) : MapInv (buildMap l) := by
  unfold buildMap
  have : ∀ (l : List Import) (m : ImportMap), MapInv m →
      MapInv (l.foldl (fun m e => insertKey m e.GoImportPath e) m) := by
    intro l
    induction l with
    | nil =>
      intro m hm
      exact hm
    | cons e rest ih =>
      intro m hm
      rw [List.foldl_cons]
      exact ih _ (mapInv_insertKey m _ e hm rfl)
  exact this l [] mapInv_nil

theorem mapInv_mergeImports (entries : List ManifestEntry) (b : List Import) :
    MapInv (mergeImports entries b) :=
  mapInv_foldl_mergeOne b _ (mapInv_buildMap _)

/-! ### Merge-step equations and idempotence -/

theorem mergeOne_of_absent (m : ImportMap) (i : Import)
    (h : lookupKey m i.GoImportPath = none) :
    mergeOne m i = m ++ [(i.GoImportPath, i)] := by
  unfold mergeOne
  rw [h]
  exact insertKey_of_absent m _ i h

theorem mergeOne_of_found_eq (m : ImportMap) (i val : Import)
    (hf : lookupKey m i.GoImportPath = some val)
    (heq : canonicalImport i = canonicalImport val) : mergeOne m i = m := by
  unfold mergeOne
  rw [hf]
  dsimp only
  rw [if_neg (by simp [heq])]

theorem mergeOne_of_found_ne (m : ImportMap) (i val : Import)
    (hf : lookupKey m i.GoImportPath = some val)
    (hne : canonicalImport i ≠ canonicalImport val) :
    mergeOne m i = insertKey (eraseKey m val.GoImportPath) i.GoImportPath
        (NewFlogoImport i.modulePath i.relativePath i.version
          (if val.importAlias ≠ "" ∧ i.importAlias = "" then val.importAlias
           else i.importAlias)) := by
  unfold mergeOne
  rw [hf]
  dsimp only
  rw [if_pos hne]

theorem lookupKey_append_single (m : ImportMap) (k : String) (v : Import)
    (h : lookupKey m k = none) : lookupKey (m ++ [(k, v)]) k = some v := by
  rw [lookupKey_append_of_none m _ k h]
  simp [lookupKey]

/-- The merge loop body is idempotent on invariant-satisfying maps:
merging the same Import Value a second time changes nothing. -/
theorem mergeOne_idem (m : ImportMap) (i : Import) (hm : MapInv m) :
    mergeOne (mergeOne m i) i = mergeOne m i := by
  cases h : lookupKey m i.GoImportPath with
  | none =>
    rw [mergeOne_of_absent m i h]
    exact mergeOne_of_found_eq _ i i (lookupKey_append_single m _ i h) rfl
  | some val =>
    have hval : val.GoImportPath = i.GoImportPath :=
      hm.2 (i.GoImportPath, val) (lookupKey_eq_some_mem m _ val h)
    by_cases hne : canonicalImport i ≠ canonicalImport val
    · have h1 : mergeOne m i = eraseKey m i.GoImportPath
          ++ [(i.GoImportPath,
               NewFlogoImport i.modulePath i.relativePath i.version
                 (if val.importAlias ≠ "" ∧ i.importAlias = "" then val.importAlias
                  else i.importAlias))] := by
        rw [mergeOne_of_found_ne m i val h hne, hval,
            insertKey_of_absent _ _ _ (lookupKey_eraseKey_self m _)]
      have h2 : lookupKey (mergeOne m i) i.GoImportPath
          = some (NewFlogoImport i.modulePath i.relativePath i.version
              (if val.importAlias ≠ "" ∧ i.importAlias = "" then val.importAlias
               else i.importAlias)) := by
        rw [h1]
        exact lookupKey_append_single _ _ _ (lookupKey_eraseKey_self m _)
      by_cases heq2 : canonicalImport i
          = canonicalImport (NewFlogoImport i.modulePath i.relativePath i.version
              (if val.importAlias ≠ "" ∧ i.importAlias = "" then val.importAlias
               else i.importAlias))
      · exact mergeOne_of_found_eq _ i _ h2 heq2
      · rw [mergeOne_of_found_ne _ i _ h2 heq2]
        have halias : (if (NewFlogoImport i.modulePath i.relativePath i.version
              (if val.importAlias ≠ "" ∧ i.importAlias = "" then val.importAlias
               else i.importAlias)).importAlias ≠ "" ∧ i.importAlias = ""
            then (NewFlogoImport i.modulePath i.relativePath i.version
              (if val.importAlias ≠ "" ∧ i.importAlias = "" then val.importAlias
               else i.importAlias)).importAlias
            else i.importAlias)
            = (if val.importAlias ≠ "" ∧ i.importAlias = "" then val.importAlias
               else i.importAlias) := by
          by_cases hia : i.importAlias = "" <;> by_cases hva : val.importAlias = "" <;>
            simp [NewFlogoImport, hia, hva]
        rw [halias]
        have herase : eraseKey (mergeOne m i)
            (NewFlogoImport i.modulePath i.relativePath i.version
              (if val.importAlias ≠ "" ∧ i.importAlias = "" then val.importAlias
               else i.importAlias)).GoImportPath
            = eraseKey m i.GoImportPath := by
          have hgk : (NewFlogoImport i.modulePath i.relativePath i.version
              (if val.importAlias ≠ "" ∧ i.importAlias = "" then val.importAlias
               else i.importAlias)).GoImportPath = i.GoImportPath := rfl
          rw [hgk, h1, eraseKey_append, eraseKey_eraseKey]
          simp [eraseKey]
        rw [herase,
            insertKey_of_absent _ _ _ (lookupKey_eraseKey_self m _), ← h1]
    · rw [not_not] at hne
      rw [mergeOne_of_found_eq m i val h hne, mergeOne_of_found_eq m i val h hne]

/-! ### Source-list add lemmas -/

theorem mem_addGoImport_self (ps : List String) (p : String) : p ∈ addGoImport ps p := by
  unfold addGoImport
  by_cases h : p ∈ ps
  · rwa [if_pos h]
  · rw [if_neg h]
    simp

theorem addGoImport_of_mem (ps : List String) (p : String) (h : p ∈ ps) :
    addGoImport ps p = ps := by
  unfold addGoImport
  rw [if_pos h]

theorem addGoImport_idem (ps : List String) (p : String) :
    addGoImport (addGoImport ps p) p = addGoImport ps p :=
  addGoImport_of_mem _ _ (mem_addGoImport_self ps p)

/-! ### Rebuilding the map from its own serialized values -/

theorem foldl_insert_append (m : ImportMap) :
    ∀ acc : ImportMap, MapInv m → (∀ p ∈ m, lookupKey acc p.1 = none) →
      (m.map Prod.snd).foldl (fun mm e => insertKey mm e.GoImportPath e) acc = acc ++ m := by
  induction m with
  | nil =>
    intro acc _ _
    simp
  | cons p rest ih =>
    intro acc hm hacc
    cases p with
    | mk k v =>
      have hvk : v.GoImportPath = k := hm.2 (k, v) (List.mem_cons_self _ _)
      have hknotin : k ∉ rest.map Prod.fst := (List.nodup_cons.mp hm.1).1
      have hmrest : MapInv rest :=
        ⟨(List.nodup_cons.mp hm.1).2, fun q hq => hm.2 q (List.mem_cons_of_mem _ hq)⟩
      rw [List.map_cons, List.foldl_cons, hvk,
          insertKey_of_absent acc k v (hacc (k, v) (List.mem_cons_self _ _))]
      have hacc' : ∀ q ∈ rest, lookupKey (acc ++ [(k, v)]) q.1 = none := by
        intro q hq
        rw [lookupKey_append_of_none acc _ _ (hacc q (List.mem_cons_of_mem _ hq))]
        have hqk : q.1 ≠ k := by
          intro he
          exact hknotin (he ▸ List.mem_map_of_mem Prod.fst hq)
        simp [lookupKey, Ne.symm hqk]
      rw [ih (acc ++ [(k, v)]) hmrest hacc']
      simp

theorem buildMap_values (m : ImportMap) (hm : MapInv m) :
    buildMap (m.map Prod.snd) = m := by
  unfold buildMap
  have h := foldl_insert_append m [] hm (fun p _ => rfl)
  simpa using h

/-! ### Evaluating AddImports on a single resolvable import -/

theorem addImports_single_eq (resolve : Import → Bool) (ig : Bool) (i : Import)
    (ps : List String) (cfg : AppConfig) (hres : resolve i = true) :
    AddImports resolve ig [i] ⟨GoFile.wellFormed ps, ManifestFile.wellFormedM cfg⟩
      = (⟨GoFile.wellFormed (addGoImport ps i.GoImportPath),
          ManifestFile.wellFormedM
            { cfg with imports := rebuildImports (mergeImports cfg.imports [i]) }⟩,
         none) := by
  have hloop : goAddLoop resolve ig [i] ps = .ok (addGoImport ps i.GoImportPath) := by
    simp [goAddLoop, hres]
  unfold AddImports addImportsInGo
  dsimp only
  rw [hloop]
  rfl

theorem addImports_pair_eq (resolve : Import → Bool) (ig : Bool) (i : Import)
    (ps : List String) (cfg : AppConfig) (hres : resolve i = true) :
    AddImports resolve ig [i, i] ⟨GoFile.wellFormed ps, ManifestFile.wellFormedM cfg⟩
      = (⟨GoFile.wellFormed (addGoImport (addGoImport ps i.GoImportPath) i.GoImportPath),
          ManifestFile.wellFormedM
            { cfg with imports := rebuildImports (mergeImports cfg.imports [i, i]) }⟩,
         none) := by
  have hloop : goAddLoop resolve ig [i, i] ps
      = .ok (addGoImport (addGoImport ps i.GoImportPath) i.GoImportPath) := by
    simp [goAddLoop, hres]
  unfold AddImports addImportsInGo
  dsimp only
  rw [hloop]
  rfl

/-! ### Claim theorems -/

/-- C4: merging an incoming Import Value `i` into the manifest map over an
existing entry `val` at the same key, with differing canonical forms,
yields at that key the entry built from `i`'s module path, relative path
and version, whose alias is `i`'s unless `i`'s alias is empty and `val`'s
is non-empty, in which case `val`'s alias is carried over. -/
theorem mergeOne_alias_carry_over (m : ImportMap) (i val : Import)
    (hfound : lookupKey m i.GoImportPath = some val)
    (hdiff : canonicalImport i ≠ canonicalImport val) :
    lookupKey (mergeOne m i) i.GoImportPath
      = some (NewFlogoImport i.modulePath i.relativePath i.version
          (if val.importAlias ≠ "" ∧ i.importAlias = "" then val.importAlias
           else i.importAlias)) := by
  unfold mergeOne
  rw [hfound]
  dsimp only
  rw [if_pos hdiff]
  exact lookupKey_insertKey_self _ _ _

/-- Witness for C4, the spec's own example: existing entry
`{modulePath m, version v1, alias a}` merged with incoming
`{modulePath m, version v2, no alias}` gives `{modulePath m, version v2, alias a}`. -/
theorem mergeOne_alias_carry_over_witness :
    (lookupKey [("m", (⟨"m", "", "v1", "a"⟩ : Import))]
        (Import.GoImportPath ⟨"m", "", "v2", ""⟩) = some ⟨"m", "", "v1", "a"⟩
      ∧ canonicalImport ⟨"m", "", "v2", ""⟩ ≠ canonicalImport ⟨"m", "", "v1", "a"⟩)
    ∧ lookupKey (mergeOne [("m", (⟨"m", "", "v1", "a"⟩ : Import))] ⟨"m", "", "v2", ""⟩)
        (Import.GoImportPath ⟨"m", "", "v2", ""⟩) = some ⟨"m", "", "v2", "a"⟩ := by
  refine ⟨⟨by decide, by decide⟩, ?_⟩
  have h := mergeOne_alias_carry_over [("m", (⟨"m", "", "v1", "a"⟩ : Import))]
      ⟨"m", "", "v2", ""⟩ ⟨"m", "", "v1", "a"⟩ (by decide) (by decide)
  exact h

/-- C7: when the existing source import file `imports.go` fails to parse,
both `AddImports` and `RemoveImports` return an error at once and leave
the whole project state — source file and manifest file — unchanged. -/
theorem malformed_go_source_aborts_unchanged (resolve : Import → Bool)
    (ig : Bool) (b : List Import) (keys : List String) (s : ProjectState)
    (h : s.goFile = GoFile.malformed) :
    ((AddImports resolve ig b s).1 = s ∧ (AddImports resolve ig b s).2.isSome = true)
      ∧ ((RemoveImports keys s).1 = s ∧ (RemoveImports keys s).2.isSome = true) := by
  cases s with
  | mk g m =>
    simp only at h
    subst h
    refine ⟨⟨rfl, rfl⟩, ⟨rfl, rfl⟩⟩

/-- Witness for C7 at a concrete project state with a malformed source file. -/
theorem malformed_go_source_aborts_unchanged_witness :
    (ProjectState.mk GoFile.malformed (ManifestFile.wellFormedM ⟨"app", "x", []⟩)).goFile
        = GoFile.malformed
    ∧ (((AddImports (fun _ => true) false []
          ⟨GoFile.malformed, ManifestFile.wellFormedM ⟨"app", "x", []⟩⟩).1
            = ⟨GoFile.malformed, ManifestFile.wellFormedM ⟨"app", "x", []⟩⟩
        ∧ (AddImports (fun _ => true) false []
            ⟨GoFile.malformed, ManifestFile.wellFormedM ⟨"app", "x", []⟩⟩).2.isSome = true)
      ∧ ((RemoveImports ["k"]
            ⟨GoFile.malformed, ManifestFile.wellFormedM ⟨"app", "x", []⟩⟩).1
              = ⟨GoFile.malformed, ManifestFile.wellFormedM ⟨"app", "x", []⟩⟩
        ∧ (RemoveImports ["k"]
            ⟨GoFile.malformed, ManifestFile.wellFormedM ⟨"app", "x", []⟩⟩).2.isSome = true)) :=
  ⟨rfl, malformed_go_source_aborts_unchanged (fun _ => true) false [] ["k"] _ rfl⟩

/-- C8: the manifest merge step fails when `flogo.json` is missing or
unreadable, and tolerates malformed import entries: an unparseable entry
in the manifest's import list is treated as absent — the merge continues,
returns no error, and produces the same result as without that entry. -/
theorem addImportsInJson_error_modes :
    (∀ (ig : Bool) (b : List Import),
        (addImportsInJson ig b ManifestFile.missing).2.isSome = true)
    ∧ (∀ (ig : Bool) (b : List Import) (raw : String),
        (addImportsInJson ig b (ManifestFile.unreadable raw)).2.isSome = true)
    ∧ (∀ (ig : Bool) (b : List Import) (cfg : AppConfig),
        (addImportsInJson ig b (ManifestFile.wellFormedM cfg)).2 = none)
    ∧ (∀ (ig : Bool) (b : List Import) (cfg : AppConfig) (raw : String),
        addImportsInJson ig b
            (ManifestFile.wellFormedM
              { cfg with imports := ManifestEntry.unparseable raw :: cfg.imports })
          = addImportsInJson ig b (ManifestFile.wellFormedM cfg)) := by
  refine ⟨fun _ _ => rfl, fun _ _ _ => rfl, fun _ _ _ => rfl, fun ig b cfg raw => ?_⟩
  simp [addImportsInJson, mergeImports, parseEntry]

/-- C9: rewriting the manifest preserves every field other than the
list of imports: on a well-formed manifest, `addImportsInJson` returns the
descriptor with the same `name` and other metadata and only the import
list replaced; through `AddImports` the manifest is either so rewritten or
untouched; `RemoveImports` never touches the manifest at all. -/
theorem manifest_frame_preservation :
    (∀ (ig : Bool) (b : List Import) (cfg : AppConfig),
        addImportsInJson ig b (ManifestFile.wellFormedM cfg)
          = (ManifestFile.wellFormedM
              { name := cfg.name, otherData := cfg.otherData,
                imports := rebuildImports (mergeImports cfg.imports b) }, none))
    ∧ (∀ (resolve : Import → Bool) (ig : Bool) (b : List Import)
        (g : GoFile) (cfg : AppConfig),
        ∃ entries,
          (AddImports resolve ig b ⟨g, ManifestFile.wellFormedM cfg⟩).1.manifest
              = ManifestFile.wellFormedM
                  { name := cfg.name, otherData := cfg.otherData, imports := entries }
            ∨ (AddImports resolve ig b ⟨g, ManifestFile.wellFormedM cfg⟩).1.manifest
              = ManifestFile.wellFormedM cfg)
    ∧ (∀ (keys : List String) (s : ProjectState),
        (RemoveImports keys s).1.manifest = s.manifest) := by
  refine ⟨fun _ _ _ => rfl, fun resolve ig b g cfg => ?_, fun keys s => ?_⟩
  · unfold AddImports
    cases hgo : addImportsInGo resolve ig b (ProjectState.mk g (ManifestFile.wellFormedM cfg)).goFile with
    | mk g' e =>
      cases e with
      | none => exact ⟨rebuildImports (mergeImports cfg.imports b), Or.inl rfl⟩
      | some err => exact ⟨[], Or.inr rfl⟩
  · unfold RemoveImports
    cases s with
    | mk g m =>
      cases g <;> rfl

/-- C10: a readable but wholly malformed `flogo.json` is not an error:
the JSON parse failure is discarded, the manifest is treated as the
zero-value descriptor, and the file is overwritten by an empty descriptor
carrying only the newly merged imports — independent of the corrupt
content, so every prior field and import entry is lost. -/
theorem malformed_manifest_silently_reset (ig : Bool) (b : List Import) (raw : String) :
    addImportsInJson ig b (ManifestFile.malformedM raw)
      = (ManifestFile.wellFormedM
          { name := "", otherData := "",
            imports := rebuildImports (mergeImports [] b) }, none) :=
  rfl

theorem parse_rebuild (m : ImportMap) :
    (rebuildImports m).filterMap parseEntry = m.map Prod.snd := by
  unfold rebuildImports
  induction m with
  | nil => rfl
  | cons p rest ih => simp [parseEntry, ih]

/-- C5: after every successful manifest merge, the rebuilt import list is
injective on keys: for any input manifest import entries and any incoming
batch, parsing the rebuilt entries back yields pairwise-distinct
`GoImportPath` keys. -/
theorem rebuilt_import_list_keys_nodup (entries : List ManifestEntry) (b : List Import) :
    (((rebuildImports (mergeImports entries b)).filterMap parseEntry).map
        Import.GoImportPath).Nodup := by
  rw [parse_rebuild]
  have hinv := mapInv_mergeImports entries b
  rw [List.map_map]
  have hk : (mergeImports entries b).map (Import.GoImportPath ∘ Prod.snd)
      = (mergeImports entries b).map Prod.fst :=
    List.map_congr_left (fun p hp => hinv.2 p hp)
  rw [hk]
  exact hinv.1

/-- C1: in strict mode (`ignoreErrors = false`), a batch containing at
least one import whose dependency resolution fails makes `AddImports`
return an error, and the manifest file is unchanged from before the call:
the manifest-writing step is never reached once the source step fails. -/
theorem addImports_strict_abort (resolve : Import → Bool) (b : List Import)
    (s : ProjectState) (h : ∃ i ∈ b, resolve i = false) :
    (AddImports resolve false b s).2.isSome = true
      ∧ (AddImports resolve false b s).1.manifest = s.manifest := by
  cases s with
  | mk g m =>
    cases g with
    | malformed => exact ⟨rfl, rfl⟩
    | wellFormed ps =>
      rcases goAddLoop_strict_error resolve b ps h with ⟨e, he⟩
      have hgo : addImportsInGo resolve false b (GoFile.wellFormed ps)
          = (GoFile.wellFormed ps, some e) := by
        unfold addImportsInGo
        dsimp only
        rw [he]
      unfold AddImports
      rw [hgo]
      exact ⟨rfl, rfl⟩

/-- Witness for C1: a one-import batch whose import never resolves, from a
parseable source file and a well-formed manifest. -/
theorem addImports_strict_abort_witness :
    (∃ i ∈ [(⟨"m", "", "", ""⟩ : Import)], (fun (_ : Import) => false) i = false)
    ∧ ((AddImports (fun _ => false) false [⟨"m", "", "", ""⟩]
          ⟨GoFile.wellFormed [], ManifestFile.wellFormedM ⟨"app", "x", []⟩⟩).2.isSome = true
      ∧ (AddImports (fun _ => false) false [⟨"m", "", "", ""⟩]
          ⟨GoFile.wellFormed [], ManifestFile.wellFormedM ⟨"app", "x", []⟩⟩).1.manifest
        = ManifestFile.wellFormedM ⟨"app", "x", []⟩) :=
  ⟨by decide, addImports_strict_abort (fun _ => false) [⟨"m", "", "", ""⟩]
      ⟨GoFile.wellFormed [], ManifestFile.wellFormedM ⟨"app", "x", []⟩⟩ (by decide)⟩

/-- C2 (code behavior at the failing input): with `ignoreErrors = true`
and a batch `[i1, i2]` where `i1` resolves and `i2` fails resolution,
`AddImports` returns no error and `i1` ends up in both representations and
`i2` is skipped in the source import list — but, because `AddImports`
passes the *full* batch to `addImportsInJson` and the manifest merge never
consults resolution results (its `ignoreError` parameter is unused), `i2`
IS recorded in the manifest import list, so the two key sets diverge. -/
theorem addImports_ignore_mode_failed_import_reaches_manifest :
    (AddImports (fun i => i.modulePath != "github.com/x/b") true
        [⟨"github.com/x/a", "", "v1", ""⟩, ⟨"github.com/x/b", "", "v1", ""⟩]
        ⟨GoFile.wellFormed [], ManifestFile.wellFormedM ⟨"app", "meta", []⟩⟩).2 = none
    ∧ "github.com/x/a" ∈ goKeys (AddImports (fun i => i.modulePath != "github.com/x/b") true
        [⟨"github.com/x/a", "", "v1", ""⟩, ⟨"github.com/x/b", "", "v1", ""⟩]
        ⟨GoFile.wellFormed [], ManifestFile.wellFormedM ⟨"app", "meta", []⟩⟩).1.goFile
    ∧ "github.com/x/a" ∈ manifestKeys (AddImports (fun i => i.modulePath != "github.com/x/b") true
        [⟨"github.com/x/a", "", "v1", ""⟩, ⟨"github.com/x/b", "", "v1", ""⟩]
        ⟨GoFile.wellFormed [], ManifestFile.wellFormedM ⟨"app", "meta", []⟩⟩).1.manifest
    ∧ "github.com/x/b" ∉ goKeys (AddImports (fun i => i.modulePath != "github.com/x/b") true
        [⟨"github.com/x/a", "", "v1", ""⟩, ⟨"github.com/x/b", "", "v1", ""⟩]
        ⟨GoFile.wellFormed [], ManifestFile.wellFormedM ⟨"app", "meta", []⟩⟩).1.goFile
    ∧ "github.com/x/b" ∈ manifestKeys (AddImports (fun i => i.modulePath != "github.com/x/b") true
        [⟨"github.com/x/a", "", "v1", ""⟩, ⟨"github.com/x/b", "", "v1", ""⟩]
        ⟨GoFile.wellFormed [], ManifestFile.wellFormedM ⟨"app", "meta", []⟩⟩).1.manifest := by
  decide

/-- C3 (counterexample to the claim as stated): `RemoveImports` never
touches the manifest, so with `K = ["k"]` and a manifest whose import list
holds key `k`, after the call the manifest's key set still contains `k`,
refuting "drops every entry matching a key in K from both ... lists" and
"neither representation's key set contains any key of K". -/
theorem removeImports_manifest_untouched_counterexample :
    (RemoveImports ["k"]
        ⟨GoFile.wellFormed ["k"],
         ManifestFile.wellFormedM ⟨"app", "x", [ManifestEntry.canonical ⟨"k", "", "", ""⟩]⟩⟩).2 = none
    ∧ "k" ∈ manifestKeys (RemoveImports ["k"]
        ⟨GoFile.wellFormed ["k"],
         ManifestFile.wellFormedM ⟨"app", "x", [ManifestEntry.canonical ⟨"k", "", "", ""⟩]⟩⟩).1.manifest := by
  decide

/-- C3 (amended): for every set of keys `K`, `RemoveImports K` drops every
entry matching a key of `K` from the *source* import list only; a key
absent from the source list is a silent no-op, removing twice equals
removing once, and afterwards the source list's key set contains no key of
`K` — while the manifest file is left entirely untouched. -/
theorem removeImports_source_only (keys : List String) (s : ProjectState)
    (ps : List String) (h : s.goFile = GoFile.wellFormed ps) :
    (∀ k ∈ keys, k ∉ goKeys (RemoveImports keys s).1.goFile)
    ∧ (∀ k, k ∉ ps → deleteGoImport ps k = ps)
    ∧ (RemoveImports keys (RemoveImports keys s).1).1 = (RemoveImports keys s).1
    ∧ (RemoveImports keys s).1.manifest = s.manifest
    ∧ (RemoveImports keys s).2 = none := by
  cases s with
  | mk g m =>
    simp only at h
    subst h
    refine ⟨?_, ?_, ?_, rfl, rfl⟩
    · intro k hk
      exact not_mem_foldl_deleteGoImport keys ps k hk
    · intro k hk
      exact deleteGoImport_of_not_mem ps k hk
    · show (⟨GoFile.wellFormed (keys.foldl deleteGoImport (keys.foldl deleteGoImport ps)), m⟩ : ProjectState)
        = ⟨GoFile.wellFormed (keys.foldl deleteGoImport ps), m⟩
      rw [foldl_deleteGoImport_of_disjoint keys _
        (fun k hk => not_mem_foldl_deleteGoImport keys ps k hk)]

/-- Witness for C3 (amended) at a concrete two-entry source list. -/
theorem removeImports_source_only_witness :
    (ProjectState.mk (GoFile.wellFormed ["k", "j"]) (ManifestFile.wellFormedM ⟨"app", "x", []⟩)).goFile
        = GoFile.wellFormed ["k", "j"]
    ∧ ((∀ k ∈ ["k"], k ∉ goKeys (RemoveImports ["k"]
          ⟨GoFile.wellFormed ["k", "j"], ManifestFile.wellFormedM ⟨"app", "x", []⟩⟩).1.goFile)
      ∧ (∀ k, k ∉ ["k", "j"] → deleteGoImport ["k", "j"] k = ["k", "j"])
      ∧ (RemoveImports ["k"] (RemoveImports ["k"]
            ⟨GoFile.wellFormed ["k", "j"], ManifestFile.wellFormedM ⟨"app", "x", []⟩⟩).1).1
          = (RemoveImports ["k"]
            ⟨GoFile.wellFormed ["k", "j"], ManifestFile.wellFormedM ⟨"app", "x", []⟩⟩).1
      ∧ (RemoveImports ["k"]
            ⟨GoFile.wellFormed ["k", "j"], ManifestFile.wellFormedM ⟨"app", "x", []⟩⟩).1.manifest
          = (ProjectState.mk (GoFile.wellFormed ["k", "j"])
              (ManifestFile.wellFormedM ⟨"app", "x", []⟩)).manifest
      ∧ (RemoveImports ["k"]
            ⟨GoFile.wellFormed ["k", "j"], ManifestFile.wellFormedM ⟨"app", "x", []⟩⟩).2 = none) :=
  ⟨rfl, removeImports_source_only ["k"]
      ⟨GoFile.wellFormed ["k", "j"], ManifestFile.wellFormedM ⟨"app", "x", []⟩⟩ ["k", "j"] rfl⟩

/-- Running a second identical single-import `AddImports` call on the
state produced by the first is a no-op on the state. -/
theorem addImports_seq_state (resolve : Import → Bool) (ig : Bool) (i : Import)
    (ps : List String) (cfg : AppConfig) (hres : resolve i = true) :
    (AddImports resolve ig [i] (AddImports resolve ig [i]
        ⟨GoFile.wellFormed ps, ManifestFile.wellFormedM cfg⟩).1).1
      = (AddImports resolve ig [i]
          ⟨GoFile.wellFormed ps, ManifestFile.wellFormedM cfg⟩).1 := by
  have hseq : mergeImports (rebuildImports (mergeImports cfg.imports [i])) [i]
      = mergeImports cfg.imports [i] := by
    show mergeOne (buildMap
        ((rebuildImports (mergeImports cfg.imports [i])).filterMap parseEntry)) i
      = mergeImports cfg.imports [i]
    rw [parse_rebuild, buildMap_values _ (mapInv_mergeImports cfg.imports [i])]
    show mergeOne (mergeOne (buildMap (cfg.imports.filterMap parseEntry)) i) i
        = mergeOne (buildMap (cfg.imports.filterMap parseEntry)) i
    exact mergeOne_idem _ i (mapInv_buildMap _)
  rw [addImports_single_eq resolve ig i ps cfg hres]
  dsimp only
  rw [addImports_single_eq resolve ig i _ _ hres]
  dsimp only
  rw [addGoImport_idem, hseq]

/-- C6: adding the same Import Value twice — twice in one batch, or in two
successive successful `AddImports` calls — yields source and manifest key
sets identical to adding it once; and whenever an incoming value's
canonical form equals the existing entry's canonical form, the merge
leaves the map unchanged. -/
theorem addImports_idempotent (resolve : Import → Bool) (ig : Bool) (i : Import)
    (s : ProjectState) (ps : List String) (cfg : AppConfig)
    (hres : resolve i = true) (hg : s.goFile = GoFile.wellFormed ps)
    (hm : s.manifest = ManifestFile.wellFormedM cfg) :
    ((goKeys (AddImports resolve ig [i, i] s).1.goFile
        = goKeys (AddImports resolve ig [i] s).1.goFile
      ∧ manifestKeys (AddImports resolve ig [i, i] s).1.manifest
        = manifestKeys (AddImports resolve ig [i] s).1.manifest)
     ∧ (goKeys (AddImports resolve ig [i] (AddImports resolve ig [i] s).1).1.goFile
        = goKeys (AddImports resolve ig [i] s).1.goFile
      ∧ manifestKeys (AddImports resolve ig [i] (AddImports resolve ig [i] s).1).1.manifest
        = manifestKeys (AddImports resolve ig [i] s).1.manifest))
    ∧ (∀ (m : ImportMap) (j val : Import), lookupKey m j.GoImportPath = some val →
        canonicalImport j = canonicalImport val → mergeOne m j = m) := by
  cases s with
  | mk g0 m0 =>
    simp only at hg hm
    subst hg
    subst hm
    have h1 := addImports_single_eq resolve ig i ps cfg hres
    have h2 := addImports_pair_eq resolve ig i ps cfg hres
    have hmerge2 : mergeImports cfg.imports [i, i] = mergeImports cfg.imports [i] := by
      show mergeOne (mergeOne (buildMap (cfg.imports.filterMap parseEntry)) i) i
          = mergeOne (buildMap (cfg.imports.filterMap parseEntry)) i
      exact mergeOne_idem _ i (mapInv_buildMap _)
    refine ⟨⟨⟨?_, ?_⟩, ?_, ?_⟩, ?_⟩
    · rw [h1, h2, addGoImport_idem]
    · rw [h1, h2, hmerge2]
    · rw [addImports_seq_state resolve ig i ps cfg hres]
    · rw [addImports_seq_state resolve ig i ps cfg hres]
    · exact fun m j val hf heq => mergeOne_of_found_eq m j val hf heq

/-- Witness for C6: one concrete import added twice to an empty project,
plus one concrete canonical-equal merge left unchanged. -/
theorem addImports_idempotent_witness :
    ((fun (_ : Import) => true) ⟨"m", "", "v1", ""⟩ = true
      ∧ (ProjectState.mk (GoFile.wellFormed []) (ManifestFile.wellFormedM ⟨"app", "x", []⟩)).goFile
          = GoFile.wellFormed []
      ∧ (ProjectState.mk (GoFile.wellFormed []) (ManifestFile.wellFormedM ⟨"app", "x", []⟩)).manifest
          = ManifestFile.wellFormedM ⟨"app", "x", []⟩)
    ∧ ((goKeys (AddImports (fun _ => true) false [⟨"m", "", "v1", ""⟩, ⟨"m", "", "v1", ""⟩]
          ⟨GoFile.wellFormed [], ManifestFile.wellFormedM ⟨"app", "x", []⟩⟩).1.goFile
        = goKeys (AddImports (fun _ => true) false [⟨"m", "", "v1", ""⟩]
          ⟨GoFile.wellFormed [], ManifestFile.wellFormedM ⟨"app", "x", []⟩⟩).1.goFile
      ∧ manifestKeys (AddImports (fun _ => true) false [⟨"m", "", "v1", ""⟩, ⟨"m", "", "v1", ""⟩]
          ⟨GoFile.wellFormed [], ManifestFile.wellFormedM ⟨"app", "x", []⟩⟩).1.manifest
        = manifestKeys (AddImports (fun _ => true) false [⟨"m", "", "v1", ""⟩]
          ⟨GoFile.wellFormed [], ManifestFile.wellFormedM ⟨"app", "x", []⟩⟩).1.manifest)
     ∧ (goKeys (AddImports (fun _ => true) false [⟨"m", "", "v1", ""⟩]
          (AddImports (fun _ => true) false [⟨"m", "", "v1", ""⟩]
            ⟨GoFile.wellFormed [], ManifestFile.wellFormedM ⟨"app", "x", []⟩⟩).1).1.goFile
        = goKeys (AddImports (fun _ => true) false [⟨"m", "", "v1", ""⟩]
          ⟨GoFile.wellFormed [], ManifestFile.wellFormedM ⟨"app", "x", []⟩⟩).1.goFile
      ∧ manifestKeys (AddImports (fun _ => true) false [⟨"m", "", "v1", ""⟩]
          (AddImports (fun _ => true) false [⟨"m", "", "v1", ""⟩]
            ⟨GoFile.wellFormed [], ManifestFile.wellFormedM ⟨"app", "x", []⟩⟩).1).1.manifest
        = manifestKeys (AddImports (fun _ => true) false [⟨"m", "", "v1", ""⟩]
          ⟨GoFile.wellFormed [], ManifestFile.wellFormedM ⟨"app", "x", []⟩⟩).1.manifest))
    ∧ mergeOne [("m", (⟨"m", "", "v1", "x"⟩ : Import))] ⟨"m", "", "v1", "x"⟩
        = [("m", (⟨"m", "", "v1", "x"⟩ : Import))] :=
  ⟨⟨rfl, rfl, rfl⟩,
   (addImports_idempotent (fun _ => true) false ⟨"m", "", "v1", ""⟩
      ⟨GoFile.wellFormed [], ManifestFile.wellFormedM ⟨"app", "x", []⟩⟩
      [] ⟨"app", "x", []⟩ rfl rfl rfl).1,
   (addImports_idempotent (fun _ => true) false ⟨"m", "", "v1", ""⟩
      ⟨GoFile.wellFormed [], ManifestFile.wellFormedM ⟨"app", "x", []⟩⟩
      [] ⟨"app", "x", []⟩ rfl rfl rfl).2
      [("m", ⟨"m", "", "v1", "x"⟩)] ⟨"m", "", "v1", "x"⟩ ⟨"m", "", "v1", "x"⟩
      (by decide) rfl⟩

end FlogoCli
